import Mathlib

/-!
Verification of the harbor-file-manager package (a digest-addressed file
store backed by a Harbor/OCI registry).  The Go sources are shallowly
embedded below: pure string manipulation and manifest-rewriting logic is
translated function by function; network calls (HTTP listing, opening an
image source, pushing an image) are passed in as explicit results or
modelled as state transitions on an abstract registry.
-/

set_option maxRecDepth 4000

/-! ## Go string primitives

Each helper mirrors the Go standard-library function that the package
calls (strings.Split, strings.Join, strings.Trim with a one-character
cutset, strings.Contains, strings.HasPrefix, strings.TrimPrefix).
Strings are handled through their character lists so every definition is
structural and kernel-evaluable. -/

/-- listHasPref l p is Go strings.HasPrefix on character lists:
true when p is an initial segment of l. -/
def listHasPref : List Char → List Char → Bool
  | _, [] => true
  | [], _ :: _ => false
  | c :: rest, p :: ps => c = p && listHasPref rest ps

/-- goContainsList pat l is Go strings.Contains(l, pat):
true when pat occurs contiguously in l. -/
def goContainsList (pat : List Char) : List Char → Bool
  | [] => pat.isEmpty
  | c :: rest => listHasPref (c :: rest) pat || goContainsList pat rest

/-- Go strings.Contains(s, sub). -/
def goContains (s sub : String) : Bool :=
  goContainsList sub.toList s.toList

/-- Auxiliary for Go strings.Split with a one-character separator:
acc holds the characters of the current field in reverse. -/
def splitCharAux (sep : Char) : List Char → List Char → List String
  | [], acc => [String.mk acc.reverse]
  | c :: rest, acc =>
    if c = sep then String.mk acc.reverse :: splitCharAux sep rest []
    else splitCharAux sep rest (c :: acc)

/-- Go strings.Split(s, sep) for a one-character separator sep (the
package only ever splits on "/" and ":").  Split("", sep) = [""], as in
Go. -/
def goSplitChar (s : String) (sep : Char) : List String :=
  splitCharAux sep s.toList []

/-- Go strings.Join(elems, sep). -/
def goJoin (sep : String) : List String → String
  | [] => ""
  | [x] => x
  | x :: y :: rest => x ++ sep ++ goJoin sep (y :: rest)

/-- Drop every leading occurrence of c. -/
def dropLeading (c : Char) : List Char → List Char
  | [] => []
  | x :: rest => if x = c then dropLeading c rest else x :: rest

/-- Go strings.Trim(s, cutset) for a one-character cutset (the package
trims "/" and " "): removes all leading and trailing copies of c. -/
def goTrimChar (s : String) (c : Char) : String :=
  String.mk ((dropLeading c ((dropLeading c s.toList).reverse)).reverse)

/-- Go strings.TrimPrefix(s, p): s without the initial p when p is an
initial segment of s, otherwise s unchanged. -/
def goTrimPrefStr (s p : String) : String :=
  if listHasPref s.toList p.toList then String.mk (s.toList.drop p.toList.length)
  else s

/-- The characters of l before the first occurrence of sep (Split(l)[0],
also the first-token rule of extractHostnameAndPathFromURL). -/
def headTok : List Char → Char → List Char
  | [], _ => []
  | c :: rest, sep => if c = sep then [] else c :: headTok rest sep

/-! ## Registry catalog client (src/unnamed/part_000)

Artifact keeps the two fields GetLatestArtifactDigest reads (ID and
Digest); the remaining JSON fields of the Go struct never enter the
logic.  The HTTP round trip of GetArtifactsByPage is passed in as a
function from (pageSize, page) to the decoded response. -/

structure Artifact where
  id : Int
  digest : String
deriving DecidableEq, Repr

/-- The scan loop of GetLatestArtifactDigest: maxID starts at -1 and
maxDigest at ""; each artifact with id strictly above the running
maximum replaces both. -/
def scanMaxDigest : List Artifact → Int → String → String
  | [], _, maxDigest => maxDigest
  | a :: rest, maxID, maxDigest =>
    if maxID < a.id then scanMaxDigest rest a.id a.digest
    else scanMaxDigest rest maxID maxDigest

/-- GetLatestArtifactDigest (src/unnamed/part_000): requests one page of
the artifact listing with pageSize 1 and page 1; propagates a listing
error; returns "" with no error on an empty listing; otherwise scans the
page for the maximum id and returns the associated digest. -/
def GetLatestArtifactDigest
    (fetch : Int → Int → Except String (List Artifact)) : Except String String :=
  match fetch 1 1 with
  | Except.error e => Except.error e
  | Except.ok artifacts =>
    if artifacts.isEmpty then Except.ok ""
    else Except.ok (scanMaxDigest artifacts (-1) "")

/-- A listing whose sole page holds artifacts with ids 3, 7, 5 (the
concrete repository of the claim). -/
def fetch357 : Int → Int → Except String (List Artifact) :=
  fun _ _ => Except.ok [⟨3, "d3"⟩, ⟨7, "d7"⟩, ⟨5, "d5"⟩]

/-- If no artifact beats the running maximum, the scan keeps the
running digest. -/
theorem scanMaxDigest_noUpdate (l : List Artifact) :
    ∀ (m : Int) (d : String), (∀ a ∈ l, ¬ m < a.id) → scanMaxDigest l m d = d := by
  induction l with
  | nil => intro m d _; rfl
  | cons a rest ih =>
    intro m d h
    have ha : ¬ m < a.id := h a (List.mem_cons_self a rest)
    simp only [scanMaxDigest, if_neg ha]
    exact ih m d (fun b hb => h b (List.mem_cons_of_mem a hb))

/-- The scan returns the digest of an artifact that attains the maximum
id, provided some artifact exceeds the initial threshold. -/
theorem scanMaxDigest_spec (l : List Artifact) :
    ∀ (m : Int) (d : String), (∃ a ∈ l, m < a.id) →
      ∃ a ∈ l, (∀ b ∈ l, b.id ≤ a.id) ∧ m < a.id ∧ scanMaxDigest l m d = a.digest := by
  induction l with
  | nil => intro m d h; exact absurd h (by simp)
  | cons a rest ih =>
    intro m d h
    by_cases hma : m < a.id
    · simp only [scanMaxDigest, if_pos hma]
      by_cases hrest : ∃ b ∈ rest, a.id < b.id
      · obtain ⟨c, hc, hcmax, hac, heq⟩ := ih a.id a.digest hrest
        refine ⟨c, List.mem_cons_of_mem a hc, ?_, lt_trans hma hac, heq⟩
        intro b hb
        rcases List.mem_cons.mp hb with hb | hb
        · exact hb ▸ le_of_lt hac
        · exact hcmax b hb
      · push_neg at hrest
        refine ⟨a, List.mem_cons_self a rest, ?_, hma,
          scanMaxDigest_noUpdate rest a.id a.digest (by
            intro b hb
            exact not_lt.mpr (hrest b hb))⟩
        intro b hb
        rcases List.mem_cons.mp hb with hb | hb
        · exact hb ▸ le_refl _
        · exact hrest b hb
    · simp only [scanMaxDigest, if_neg hma]
      have hrest : ∃ b ∈ rest, m < b.id := by
        obtain ⟨c, hc, hmc⟩ := h
        rcases List.mem_cons.mp hc with hceq | hcm
        · exact absurd (hceq ▸ hmc) hma
        · exact ⟨c, hcm, hmc⟩
      obtain ⟨c, hc, hcmax, hmc, heq⟩ := ih m d hrest
      refine ⟨c, List.mem_cons_of_mem a hc, ?_, hmc, heq⟩
      intro b hb
      rcases List.mem_cons.mp hb with hb | hb
      · subst hb
        exact le_of_lt (lt_of_le_of_lt (not_lt.mp hma) hmc)
      · exact hcmax b hb

/-- C4: on a repository whose artifact listing is empty,
GetLatestArtifactDigest returns the empty digest together with no error
(a valid "no version yet" result, not a failure). -/
theorem getLatestArtifactDigest_empty
    (fetch : Int → Int → Except String (List Artifact))
    (h : fetch 1 1 = Except.ok []) :
    GetLatestArtifactDigest fetch = Except.ok "" := by
  simp [GetLatestArtifactDigest, h]

/-- Witness for C4: a listing with zero artifacts yields the empty
digest and no error. -/
theorem getLatestArtifactDigest_empty_witness :
    GetLatestArtifactDigest (fun _ _ => Except.ok []) = Except.ok "" :=
  getLatestArtifactDigest_empty (fun _ _ => Except.ok []) rfl

/-- C5: GetLatestArtifactDigest consults exactly the page requested with
page size 1 and page number 1 (two listings agreeing there give equal
results), and on a nonempty page of artifacts with nonnegative ids it
returns the digest of an artifact attaining the maximum id; on the
concrete page with ids 3, 7, 5 it returns the digest associated with
id 7. -/
theorem getLatestArtifactDigest_max
    (fetch : Int → Int → Except String (List Artifact))
    (l : List Artifact)
    (hf : fetch 1 1 = Except.ok l)
    (hne : l ≠ [])
    (hpos : ∀ a ∈ l, 0 ≤ a.id) :
    (∀ fetch2, fetch2 1 1 = fetch 1 1 →
        GetLatestArtifactDigest fetch2 = GetLatestArtifactDigest fetch) ∧
    (∃ a ∈ l, (∀ b ∈ l, b.id ≤ a.id) ∧
        GetLatestArtifactDigest fetch = Except.ok a.digest) ∧
    GetLatestArtifactDigest fetch357 = Except.ok "d7" := by
  refine ⟨?_, ?_, ?_⟩
  · intro fetch2 h2
    simp [GetLatestArtifactDigest, h2]
  · have hex : ∃ a ∈ l, (-1 : Int) < a.id := by
      match l, hne with
      | a :: rest, _ =>
        exact ⟨a, List.mem_cons_self a rest, lt_of_lt_of_le (by norm_num)
          (hpos a (List.mem_cons_self a rest))⟩
    obtain ⟨a, ha, hmax, _, heq⟩ := scanMaxDigest_spec l (-1) "" hex
    refine ⟨a, ha, hmax, ?_⟩
    simp [GetLatestArtifactDigest, hf, List.isEmpty_iff, hne, heq]
  · rfl

/-- Witness for C5: on the page with ids 3, 7, 5, the returned digest
belongs to an artifact whose id dominates the page. -/
theorem getLatestArtifactDigest_max_witness :
    ∃ a ∈ [(⟨3, "d3"⟩ : Artifact), ⟨7, "d7"⟩, ⟨5, "d5"⟩],
      (∀ b ∈ [(⟨3, "d3"⟩ : Artifact), ⟨7, "d7"⟩, ⟨5, "d5"⟩], b.id ≤ a.id) ∧
      GetLatestArtifactDigest fetch357 = Except.ok a.digest :=
  (getLatestArtifactDigest_max fetch357 [⟨3, "d3"⟩, ⟨7, "d7"⟩, ⟨5, "d5"⟩]
    rfl (by decide) (by decide)).2.1

/-! ## Repository locator (src/pkg/manager/helper.go)

extractProjectNameAndRepoName, extractHostnameAndPathFromURL and
parseHarborURL translated clause by clause.  The call to Go's
net/url.Parse in the http branch is embedded below as urlParse, a model
of net/url for the address grammar in scope (no query, fragment,
percent-escape or bracketed IPv6 host in a store address): scheme
detection, authority/host extraction with userinfo and port stripping,
and the relative-path fallback, following the documented behaviour of
net/url. -/

/-- extractProjectNameAndRepoName (helper.go): trims "/", splits on "/",
takes the first segment as project name; the last segment is the repo
name when it has no ":", otherwise it is split on ":": more than two
parts are rejoined with "-" (dropping the last), one part is taken
as-is, and any other case yields the empty repo name. -/
def extractProjectNameAndRepoName (repoPathURI : String) : String × String :=
  let trimmed := goTrimChar repoPathURI '/'
  match goSplitChar trimmed '/' with
  | [] => ("", "")
  | p :: rest =>
    let lastMainPart := List.getLastD (p :: rest) ""
    if goContains lastMainPart ":" = false then (p, lastMainPart)
    else
      let subParts := goSplitChar lastMainPart ':'
      if subParts.length > 2 then
        (p, goJoin "-" (List.take (subParts.length - 1) subParts))
      else if subParts.length = 1 then (p, List.headD subParts "")
      else (p, "")

/-- ASCII letter test used by net/url scheme detection. -/
def isAlphaChar (c : Char) : Bool :=
  (decide ('a' ≤ c) && decide (c ≤ 'z')) || (decide ('A' ≤ c) && decide (c ≤ 'Z'))

/-- ASCII digit test used by net/url scheme detection. -/
def isDigitChar (c : Char) : Bool :=
  decide ('0' ≤ c) && decide (c ≤ '9')

/-- net/url getScheme: scans for letter, then letters/digits/+-.,
stopping at ':' (scheme found), at any other character (no scheme), or
at the end (no scheme); a leading ':' is an error. -/
def getSchemeAux (orig : List Char) : List Char → Nat → Except String (List Char × List Char)
  | [], _ => Except.ok ([], orig)
  | c :: rest, i =>
    if isAlphaChar c then getSchemeAux orig rest (i + 1)
    else if isDigitChar c || c == '+' || c == '-' || c == '.' then
      if i = 0 then Except.ok ([], orig) else getSchemeAux orig rest (i + 1)
    else if c == ':' then
      if i = 0 then Except.error "missing protocol scheme"
      else Except.ok (orig.take i, orig.drop (i + 1))
    else Except.ok ([], orig)

/-- Scheme and remainder of a raw URL, as in net/url. -/
def getScheme (l : List Char) : Except String (List Char × List Char) :=
  getSchemeAux l l 0

/-- Characters after the last '@' (net/url keeps the host part of
authority, dropping userinfo at the last '@'). -/
def afterLastAt (l : List Char) : List Char :=
  (headTok l.reverse '@').reverse

/-- net/url TrimPrefix(x, "[") used by stripPort. -/
def dropLeadBracket : List Char → List Char
  | '[' :: rest => rest
  | l => l

/-- net/url stripPort, as in URL.Hostname(): with no ':' the host is
unchanged; with a ']' present the bracketed part is kept; otherwise the
host is cut at the first ':'. -/
def stripPort (host : List Char) : List Char :=
  if goContainsList [':'] host then
    if goContainsList [']'] host then dropLeadBracket (headTok host ']')
    else headTok host ':'
  else host

/-- Model of Go url.Parse restricted to (URL.Hostname(), URL.Path):
scheme detection, the "//" authority rule, the opaque case for a scheme
with no "/", and the relative-path fallback with its
first-segment-colon check. -/
def urlParse (s : String) : Except String (String × String) :=
  match getScheme s.toList with
  | Except.error e => Except.error e
  | Except.ok (schemeChars, rest) =>
    if listHasPref rest ['/'] then
      if listHasPref rest ['/', '/'] &&
          (!schemeChars.isEmpty || !listHasPref rest ['/', '/', '/']) then
        let afterSlashes := rest.drop 2
        let authority := headTok afterSlashes '/'
        Except.ok (String.mk (stripPort (afterLastAt authority)),
                   String.mk (afterSlashes.drop authority.length))
      else Except.ok ("", String.mk rest)
    else
      if schemeChars.isEmpty then
        if goContainsList [':'] (headTok rest '/') then
          Except.error "first path segment in URL cannot contain colon"
        else Except.ok ("", String.mk rest)
      else Except.ok ("", "")

/-- extractHostnameAndPathFromURL (helper.go): trims spaces; when the
input does not start with the literal "http" it splits on "/" and
returns the first token as hostname with the rest (via TrimPrefix) as
path; otherwise it defers to url.Parse and returns (Hostname(), Path). -/
def extractHostnameAndPathFromURL (inputURL : String) : Except String (String × String) :=
  let trimmed := goTrimChar inputURL ' '
  if listHasPref trimmed.toList ("http".toList) = false then
    let arr := goSplitChar trimmed '/'
    Except.ok (List.headD arr "", goTrimPrefStr trimmed (List.headD arr ""))
  else
    match urlParse trimmed with
    | Except.error e => Except.error e
    | Except.ok (hostname, path) => Except.ok (hostname, path)

/-- parseHarborURL (helper.go): hostname and path from
extractHostnameAndPathFromURL, then project and repo names from
extractProjectNameAndRepoName; the only failure path is a url.Parse
error. -/
def parseHarborURL (harborRepoURL : String) : Except String (String × String × String) :=
  match extractHostnameAndPathFromURL harborRepoURL with
  | Except.error e => Except.error e
  | Except.ok (harborHostname, uriPath) =>
    let pr := extractProjectNameAndRepoName uriPath
    Except.ok (harborHostname, pr.1, pr.2)

/-- Follows the claim's words, for comparison with the source dispatch:
an address "carries an http/https scheme" when it starts with the
scheme-qualified form http:// or https://. -/
def specHasHttpScheme (s : String) : Bool :=
  listHasPref s.toList ("http://".toList) || listHasPref s.toList ("https://".toList)

/-! ### Splitting lemmas -/

/-- String.mk undoes toList. -/
theorem stringMk_toList (s : String) : String.mk s.toList = s := rfl

/-- toList undoes String.mk. -/
theorem toList_stringMk (l : List Char) : (String.mk l).toList = l := rfl

/-- Go Split on a one-character separator yields one more field than
there are separator occurrences. -/
theorem splitCharAux_length (sep : Char) :
    ∀ (l acc : List Char), (splitCharAux sep l acc).length = l.count sep + 1 := by
  intro l
  induction l with
  | nil => intro acc; simp [splitCharAux]
  | cons c rest ih =>
    intro acc
    by_cases hc : c = sep
    · subst hc
      simp [splitCharAux, ih, List.count_cons]
    · simp [splitCharAux, hc, ih, List.count_cons]

/-- goSplitChar always returns at least one field. -/
theorem goSplitChar_exists_cons (s : String) (sep : Char) :
    ∃ p rest, goSplitChar s sep = p :: rest := by
  cases h : goSplitChar s sep with
  | nil =>
    exfalso
    have := splitCharAux_length sep s.toList []
    rw [show splitCharAux sep s.toList [] = goSplitChar s sep from rfl, h] at this
    simp at this
  | cons p rest => exact ⟨p, rest, rfl⟩

/-- The first field of the split is the pending accumulator followed by
the characters before the first separator. -/
theorem splitCharAux_headD (sep : Char) :
    ∀ (l acc : List Char),
      List.headD (splitCharAux sep l acc) "" = String.mk (acc.reverse ++ headTok l sep) := by
  intro l
  induction l with
  | nil => intro acc; simp [splitCharAux, headTok]
  | cons c rest ih =>
    intro acc
    by_cases hc : c = sep
    · simp [splitCharAux, headTok, hc]
    · simp only [splitCharAux, headTok, if_neg hc]
      rw [ih (c :: acc)]
      simp

/-- The first field of goSplitChar is headTok. -/
theorem goSplitChar_headD (s : String) (sep : Char) :
    List.headD (goSplitChar s sep) "" = String.mk (headTok s.toList sep) := by
  rw [goSplitChar, splitCharAux_headD]
  simp

/-- headTok is an initial segment of its input. -/
theorem listHasPref_headTok (sep : Char) :
    ∀ l : List Char, listHasPref l (headTok l sep) = true := by
  intro l
  induction l with
  | nil => rfl
  | cons c rest ih =>
    by_cases hc : c = sep
    · simp [headTok, hc, listHasPref]
    · simp [headTok, hc, listHasPref, ih]

/-- headTok never contains the separator. -/
theorem headTok_ne_sep (sep : Char) :
    ∀ l : List Char, ∀ ch ∈ headTok l sep, ch ≠ sep := by
  intro l
  induction l with
  | nil => intro ch h; simp [headTok] at h
  | cons c rest ih =>
    intro ch h
    by_cases hc : c = sep
    · simp [headTok, hc] at h
    · rw [headTok, if_neg hc] at h
      rcases List.mem_cons.mp h with h | h
      · exact h ▸ hc
      · exact ih ch h

/-- Dropping the first field from the input recovers the remainder. -/
theorem headTok_append_drop (sep : Char) :
    ∀ l : List Char, headTok l sep ++ l.drop (headTok l sep).length = l := by
  intro l
  induction l with
  | nil => rfl
  | cons c rest ih =>
    by_cases hc : c = sep
    · simp [headTok, hc]
    · simp [headTok, hc, ih]

/-- A list has itself as an initial segment. -/
theorem listHasPref_self : ∀ l : List Char, listHasPref l l = true := by
  intro l
  induction l with
  | nil => rfl
  | cons c rest ih => simp [listHasPref, ih]

/-- One-character containment is membership. -/
theorem goContainsList_single (c : Char) :
    ∀ l : List Char, goContainsList [c] l = true ↔ c ∈ l := by
  intro l
  induction l with
  | nil => simp [goContainsList, List.isEmpty]
  | cons x rest ih =>
    by_cases hx : x = c
    · subst hx
      simp [goContainsList, listHasPref]
    · have hcx : ¬ c = x := fun h => hx h.symm
      simp [goContainsList, listHasPref, hx, hcx, ih, List.mem_cons]

/-- When no character of the input is the separator, the split is one
field holding the whole input. -/
theorem splitCharAux_no_sep (sep : Char) :
    ∀ (l acc : List Char), (∀ x ∈ l, x ≠ sep) →
      splitCharAux sep l acc = [String.mk (acc.reverse ++ l)] := by
  intro l
  induction l with
  | nil => intro acc _; simp [splitCharAux]
  | cons c rest ih =>
    intro acc h
    have hc : c ≠ sep := h c (List.mem_cons_self c rest)
    rw [splitCharAux, if_neg hc, ih (c :: acc) (fun x hx => h x (List.mem_cons_of_mem c hx))]
    simp

/-- The bare (non-"http") branch of extractHostnameAndPathFromURL. -/
theorem extractHostnameAndPathFromURL_bare (s : String)
    (h1 : listHasPref (goTrimChar s ' ').toList ("http".toList) = false) :
    extractHostnameAndPathFromURL s = Except.ok
      (List.headD (goSplitChar (goTrimChar s ' ') '/') "",
       goTrimPrefStr (goTrimChar s ' ') (List.headD (goSplitChar (goTrimChar s ' ') '/') "")) := by
  unfold extractHostnameAndPathFromURL
  rw [if_pos h1]

/-- A segment without ':' is not goContains-matched by ":". -/
theorem goContains_colon_eq_false (x : String) (h : x.toList.count ':' = 0) :
    goContains x ":" = false := by
  have hmem : ':' ∉ x.toList := List.count_eq_zero.mp h
  unfold goContains
  rw [show ((":").toList) = [':'] from rfl]
  cases hb : goContainsList [':'] x.toList with
  | false => rfl
  | true => exact absurd ((goContainsList_single ':' x.toList).mp hb) hmem

/-- A segment with ':' is goContains-matched by ":". -/
theorem goContains_colon_eq_true (x : String) (h : ':' ∈ x.toList) :
    goContains x ":" = true := by
  unfold goContains
  rw [show ((":").toList) = [':'] from rfl]
  exact (goContainsList_single ':' x.toList).mpr h

/-- Field count of goSplitChar. -/
theorem goSplitChar_length (s : String) (sep : Char) :
    (goSplitChar s sep).length = s.toList.count sep + 1 :=
  splitCharAux_length sep s.toList []

/-- C2 (amended): when the final path segment contains no colon it is
returned unchanged as the repository name; when it contains exactly one
colon the repository name is EMPTY (the part before the colon is not
recovered — only three or more colon-delimited parts are rejoined). -/
theorem extractProjectNameAndRepoName_colonCases (s : String) :
    ((List.getLastD (goSplitChar (goTrimChar s '/') '/') "").toList.count ':' = 0 →
      extractProjectNameAndRepoName s =
        (List.headD (goSplitChar (goTrimChar s '/') '/') "",
         List.getLastD (goSplitChar (goTrimChar s '/') '/') "")) ∧
    ((List.getLastD (goSplitChar (goTrimChar s '/') '/') "").toList.count ':' = 1 →
      extractProjectNameAndRepoName s =
        (List.headD (goSplitChar (goTrimChar s '/') '/') "", "")) := by
  obtain ⟨p, rest, hsplit⟩ := goSplitChar_exists_cons (goTrimChar s '/') '/'
  constructor
  · intro hcount
    rw [hsplit] at hcount ⊢
    have hc := goContains_colon_eq_false (List.getLastD (p :: rest) "") hcount
    unfold extractProjectNameAndRepoName
    dsimp only
    rw [hsplit]
    dsimp only
    rw [if_pos hc]
    simp
  · intro hcount
    rw [hsplit] at hcount ⊢
    have hmem : ':' ∈ (List.getLastD (p :: rest) "").toList := by
      by_contra hnot
      rw [List.count_eq_zero.mpr hnot] at hcount
      simp at hcount
    have hc := goContains_colon_eq_true (List.getLastD (p :: rest) "") hmem
    have hcfalse : ¬ goContains (List.getLastD (p :: rest) "") ":" = false := by
      rw [hc]
      simp
    have hlen : (goSplitChar (List.getLastD (p :: rest) "") ':').length = 2 := by
      rw [goSplitChar_length, hcount]
    unfold extractProjectNameAndRepoName
    dsimp only
    rw [hsplit]
    dsimp only
    rw [if_neg hcfalse, if_neg (by rw [hlen]; omega), if_neg (by rw [hlen]; omega)]
    simp

/-- Witness for C2: "ns/sub/repo" keeps "repo"; "ns/repo:tag" (one
colon) yields the empty repository name. -/
theorem extractProjectNameAndRepoName_colonCases_witness :
    extractProjectNameAndRepoName "ns/sub/repo" = ("ns", "repo") ∧
    extractProjectNameAndRepoName "ns/repo:tag" = ("ns", "") := by
  constructor
  · exact (extractProjectNameAndRepoName_colonCases "ns/sub/repo").1 (by decide)
  · exact (extractProjectNameAndRepoName_colonCases "ns/repo:tag").2 (by decide)

/-- Counterexample for C2 as stated: the final segment "image:22.04"
contains exactly one colon, yet the repository name is "" rather than
the part "image" before the colon. -/
theorem extractProjectNameAndRepoName_oneColon_counterexample :
    extractProjectNameAndRepoName "vmimages/image:22.04" = ("vmimages", "") ∧
    (("vmimages" : String), ("" : String)) ≠ ("vmimages", "image") := by
  exact ⟨rfl, by decide⟩

/-- Counterexample for C3 as stated: an address with an empty path (and
hence an empty repository name) parses SUCCESSFULLY to empty project and
repository names; no InvalidAddress error is raised. -/
theorem parseHarborURL_emptyPath_counterexample :
    parseHarborURL "hub.example.com" = Except.ok ("hub.example.com", "", "") := by
  rfl

/-- C3 (amended): parseHarborURL performs no validation: on any
space-trimmed address that does not start with "http" and contains no
"/" (so its path is empty and the repository name decomposes to ""), it
returns the hostname with empty project and repository names and no
error, instead of failing with InvalidAddress. -/
theorem parseHarborURL_noValidation (s : String)
    (h1 : listHasPref (goTrimChar s ' ').toList ("http".toList) = false)
    (h2 : ∀ ch ∈ (goTrimChar s ' ').toList, ch ≠ '/') :
    parseHarborURL s = Except.ok (goTrimChar s ' ', "", "") := by
  have harr : goSplitChar (goTrimChar s ' ') '/' = [goTrimChar s ' '] := by
    unfold goSplitChar
    rw [splitCharAux_no_sep '/' (goTrimChar s ' ').toList [] h2]
    simp only [List.reverse_nil, List.nil_append, stringMk_toList]
  have hextract := extractHostnameAndPathFromURL_bare s h1
  rw [harr] at hextract
  simp only [List.headD_cons] at hextract
  have htrim : goTrimPrefStr (goTrimChar s ' ') (goTrimChar s ' ') = "" := by
    unfold goTrimPrefStr
    rw [if_pos (listHasPref_self _)]
    simp only [List.drop_length]
  rw [htrim] at hextract
  unfold parseHarborURL
  rw [hextract]
  rfl

/-- Witness for C3 (amended): a bare hostname with no path parses to
empty project and repository names with no error. -/
theorem parseHarborURL_noValidation_witness :
    parseHarborURL "registry.local" = Except.ok ("registry.local", "", "") :=
  parseHarborURL_noValidation "registry.local" (by decide) (by decide)

/-- C8 (amended): the dispatch of extractHostnameAndPathFromURL is on
the literal prefix "http" of the space-trimmed input, not on the
presence of an http/https scheme.  An input NOT starting with "http" is
split at the first "/": the first token (free of "/") becomes the
hostname and the remainder the path, and the two reassemble to the
trimmed input; an input starting with "http" — whether or not it
carries an actual scheme — is handed to the URL parser, whose hostname
and path are returned. -/
theorem extractHostnameAndPathFromURL_dispatch :
    (∀ s, listHasPref (goTrimChar s ' ').toList ("http".toList) = false →
      extractHostnameAndPathFromURL s = Except.ok
        (String.mk (headTok (goTrimChar s ' ').toList '/'),
         String.mk ((goTrimChar s ' ').toList.drop
           (headTok (goTrimChar s ' ').toList '/').length)) ∧
      String.mk (headTok (goTrimChar s ' ').toList '/') ++
        String.mk ((goTrimChar s ' ').toList.drop
          (headTok (goTrimChar s ' ').toList '/').length) = goTrimChar s ' ' ∧
      (∀ ch ∈ headTok (goTrimChar s ' ').toList '/', ch ≠ '/')) ∧
    (∀ s, listHasPref (goTrimChar s ' ').toList ("http".toList) = true →
      extractHostnameAndPathFromURL s = urlParse (goTrimChar s ' ')) := by
  constructor
  · intro s h1
    have hb := extractHostnameAndPathFromURL_bare s h1
    rw [goSplitChar_headD] at hb
    have htp : goTrimPrefStr (goTrimChar s ' ')
        (String.mk (headTok (goTrimChar s ' ').toList '/')) =
        String.mk ((goTrimChar s ' ').toList.drop
          (headTok (goTrimChar s ' ').toList '/').length) := by
      unfold goTrimPrefStr
      simp only [toList_stringMk]
      rw [if_pos (listHasPref_headTok '/' (goTrimChar s ' ').toList)]
    rw [htp] at hb
    refine ⟨hb, ?_, headTok_ne_sep '/' _⟩
    have happ : String.mk (headTok (goTrimChar s ' ').toList '/') ++
        String.mk ((goTrimChar s ' ').toList.drop
          (headTok (goTrimChar s ' ').toList '/').length) =
        String.mk (headTok (goTrimChar s ' ').toList '/' ++
          (goTrimChar s ' ').toList.drop
            (headTok (goTrimChar s ' ').toList '/').length) := rfl
    rw [happ, headTok_append_drop '/']
    exact stringMk_toList _
  · intro s h1
    unfold extractHostnameAndPathFromURL
    rw [if_neg (by rw [h1]; simp)]
    cases hu : urlParse (goTrimChar s ' ') with
    | error e => rfl
    | ok pr =>
      obtain ⟨a, b⟩ := pr
      rfl

/-- Witness for C8 (amended): a bare address is split at the first "/"
into hostname and path. -/
theorem extractHostnameAndPathFromURL_dispatch_witness :
    extractHostnameAndPathFromURL "registry.example.com/a/b" =
      Except.ok ("registry.example.com", "/a/b") :=
  ((extractHostnameAndPathFromURL_dispatch).1 "registry.example.com/a/b" (by decide)).1

/-- Counterexample for C8 as stated: "httpfoo/bar" carries no http or
https scheme, yet the parse does NOT treat "httpfoo" as the hostname —
the literal-prefix dispatch sends it to the URL parser, which returns an
empty hostname and the whole input as path. -/
theorem extractHostnameAndPathFromURL_dispatch_counterexample :
    specHasHttpScheme "httpfoo/bar" = false ∧
    extractHostnameAndPathFromURL "httpfoo/bar" = Except.ok ("", "httpfoo/bar") ∧
    (("" : String), ("httpfoo/bar" : String)) ≠ ("httpfoo", "/bar") := by
  refine ⟨rfl, ?_, by decide⟩
  rfl

/-! ## Manifest synchronizer (updateManifest, getLatestLayerDigest)

The manifest is decoded in Go into map[string]interface{}; it is
embedded as an association list from keys to a JSON value type.  mapGet
and mapSet are Go map lookup and assignment. -/

inductive Json where
  | null : Json
  | bool (b : Bool) : Json
  | num (n : Int) : Json
  | str (s : String) : Json
  | arr (xs : List Json) : Json
  | obj (fields : List (String × Json)) : Json

/-- A decoded JSON object, the shape of Go map[string]interface{}. -/
abbrev JsonMap := List (String × Json)

/-- Go map lookup m[key]. -/
def mapGet : JsonMap → String → Option Json
  | [], _ => none
  | (k, v) :: rest, key => if k = key then some v else mapGet rest key

/-- Go map assignment m[key] = v. -/
def mapSet : JsonMap → String → Json → JsonMap
  | [], key, v => [(key, v)]
  | (k, w) :: rest, key, v =>
    if k = key then (k, v) :: rest else (k, w) :: mapSet rest key v

/-- Assignment then lookup of the same key yields the assigned value. -/
theorem mapGet_mapSet_self (m : JsonMap) (k : String) (v : Json) :
    mapGet (mapSet m k v) k = some v := by
  induction m with
  | nil => simp [mapSet, mapGet]
  | cons kv rest ih =>
    obtain ⟨k1, w⟩ := kv
    by_cases hk : k1 = k
    · simp [mapSet, mapGet, hk]
    · simp [mapSet, mapGet, hk, ih]

/-- The new layer entry built by updateManifest: fixed compressed-tar
media type, the pushed blob's digest and the file size. -/
def newLayer (digestStr : String) (fileSize : Int) : Json :=
  Json.obj [("mediaType", Json.str "application/vnd.oci.image.layer.v1.tar+gzip"),
            ("digest", Json.str digestStr),
            ("size", Json.num fileSize)]

/-- The Go type assertion manifest["layers"].([]interface{}): the layers
value when present and an array, none otherwise. -/
def layersArray (m : JsonMap) : Option (List Json) :=
  match mapGet m "layers" with
  | some (Json.arr xs) => some xs
  | _ => none

/-- updateManifest (manager): appends the new layer entry at the END of
the existing layers array, or installs a fresh one-element array when
the layers key is absent or not an array; the resulting manifest is
what PutManifest pushes. -/
def updateManifest (manifest : JsonMap) (digestStr : String) (fileSize : Int) : JsonMap :=
  match layersArray manifest with
  | some layers => mapSet manifest "layers" (Json.arr (layers ++ [newLayer digestStr fileSize]))
  | none => mapSet manifest "layers" (Json.arr [newLayer digestStr fileSize])

/-- getLatestLayerDigest (manager): reads layers[0].digest from the
fetched manifest; errors when layers is absent, not an array or empty,
when layers[0] is not an object, or when its digest is not a string. -/
def getLatestLayerDigest (manifestData : JsonMap) : Except String String :=
  match mapGet manifestData "layers" with
  | some (Json.arr (l0 :: _)) =>
    match l0 with
    | Json.obj fields =>
      match mapGet fields "digest" with
      | some (Json.str digestStr) => Except.ok digestStr
      | _ => Except.error "no digest field found in layer at index 0"
    | _ => Except.error "invalid layer data at index 0"
  | _ => Except.error "no layers field found or it is not an array"

/-- The manifest of the bootstrap layout pushed by createOCIImageLayout:
a config descriptor and an EMPTY layers array. -/
def createOCIImageLayoutManifest (configDigest : String) (configSize : Int) : JsonMap :=
  [("schemaVersion", Json.num 2),
   ("mediaType", Json.str "application/vnd.docker.distribution.manifest.v2+json"),
   ("config", Json.obj
     [("mediaType", Json.str "application/vnd.oci.image.config.v1+json"),
      ("digest", Json.str ("sha256:" ++ configDigest)),
      ("size", Json.num configSize)]),
   ("layers", Json.arr [])]

/-- C1 evaluated at the failing input: starting from the bootstrap
manifest (empty layers) and running UploadFile's manifest update twice,
with digests sha256:d1 then sha256:d2, the layers list ends up in
append order with the most recent layer LAST (not first), and
getLatestLayerDigest — which reads layers[0] — returns the digest of
the FIRST appended blob, not that of the second (most recent) one. -/
theorem updateManifest_appendTwice_latestIsFirstAppended :
    mapGet (updateManifest (updateManifest (createOCIImageLayoutManifest "cfg" 64)
        "sha256:d1" 5) "sha256:d2" 7) "layers" =
      some (Json.arr [newLayer "sha256:d1" 5, newLayer "sha256:d2" 7]) ∧
    getLatestLayerDigest (updateManifest (updateManifest (createOCIImageLayoutManifest "cfg" 64)
        "sha256:d1" 5) "sha256:d2" 7) = Except.ok "sha256:d1" ∧
    Except.ok "sha256:d1" ≠ (Except.ok "sha256:d2" : Except String String) := by
  refine ⟨rfl, rfl, ?_⟩
  intro h
  injection h with h2
  exact absurd h2 (by decide)

/-- C10: when the fetched manifest has no layers array (key absent or
value not an array), updateManifest does not fail: it installs a fresh
layers array holding only the new entry, and that is what the pushed
manifest carries. -/
theorem updateManifest_missingLayers (m : JsonMap) (digestStr : String) (fileSize : Int)
    (h : layersArray m = none) :
    updateManifest m digestStr fileSize =
      mapSet m "layers" (Json.arr [newLayer digestStr fileSize]) ∧
    mapGet (updateManifest m digestStr fileSize) "layers" =
      some (Json.arr [newLayer digestStr fileSize]) := by
  have h1 : updateManifest m digestStr fileSize =
      mapSet m "layers" (Json.arr [newLayer digestStr fileSize]) := by
    unfold updateManifest
    rw [h]
  exact ⟨h1, by rw [h1]; exact mapGet_mapSet_self m "layers" _⟩

/-- Witness for C10: a manifest without a layers key gets a fresh
one-element layers array. -/
theorem updateManifest_missingLayers_witness :
    mapGet (updateManifest [("schemaVersion", Json.num 2)] "sha256:w" 4) "layers" =
      some (Json.arr [newLayer "sha256:w" 4]) :=
  (updateManifest_missingLayers [("schemaVersion", Json.num 2)] "sha256:w" 4 rfl).2

/-! ## Repository bootstrap (checkRemoteRepoExists,
CreateRepositoryIfNotExist)

The transport calls are passed in as results: parseRes stands for
alltransports.ParseImageName and openRes for NewImageSource on
docker://address.  For the idempotence claim the remote registry is an
abstract state (the set of repositories it hosts). -/

/-- checkRemoteRepoExists (helper.go): a parse failure is wrapped and
propagated; an open failure whose message contains "not found" means
the repository does not exist (false, no error); any other open failure
is wrapped and propagated; success means the repository exists. -/
def checkRemoteRepoExists (parseRes openRes : Except String Unit) : Except String Bool :=
  match parseRes with
  | Except.error e =>
    Except.error ("error checkRemoteRepoExists call alltransports.ParseImageName: " ++ e)
  | Except.ok _ =>
    match openRes with
    | Except.error e =>
      if goContains e "not found" then Except.ok false
      else Except.error ("error checkRemoteRepoExists call checkRemoteRepoExists NewImageSource: " ++ e)
    | Except.ok _ => Except.ok true

/-- CreateRepositoryIfNotExist (manager): an error from the existence
check is returned unchanged and no bootstrap push happens; when the
repository exists nothing is done; only when it does not exist is the
bootstrap layout built and pushed (second component true).  The layout
build and upload are taken as succeeding; their own failure paths only
return errors and push nothing further. -/
def CreateRepositoryIfNotExist (parseRes openRes : Except String Unit) :
    Except String Unit × Bool :=
  match checkRemoteRepoExists parseRes openRes with
  | Except.error e => (Except.error e, false)
  | Except.ok true => (Except.ok (), false)
  | Except.ok false => (Except.ok (), true)

/-- C6: nonexistence is concluded only from a "not found" open error:
an open failure whose message lacks "not found" is wrapped and
propagated by checkRemoteRepoExists, CreateRepositoryIfNotExist returns
that transport error and performs no bootstrap push; and whenever the
check concludes nonexistence, the open result was an error containing
"not found". -/
theorem checkRemoteRepoExists_propagates (msg : String)
    (h : goContains msg "not found" = false) :
    checkRemoteRepoExists (Except.ok ()) (Except.error msg) =
      Except.error ("error checkRemoteRepoExists call checkRemoteRepoExists NewImageSource: " ++ msg) ∧
    CreateRepositoryIfNotExist (Except.ok ()) (Except.error msg) =
      (Except.error ("error checkRemoteRepoExists call checkRemoteRepoExists NewImageSource: " ++ msg),
       false) ∧
    (∀ parseRes openRes, checkRemoteRepoExists parseRes openRes = Except.ok false →
      ∃ m, openRes = Except.error m ∧ goContains m "not found" = true) := by
  have h1 : checkRemoteRepoExists (Except.ok ()) (Except.error msg) =
      Except.error ("error checkRemoteRepoExists call checkRemoteRepoExists NewImageSource: " ++ msg) := by
    unfold checkRemoteRepoExists
    dsimp only
    rw [if_neg (by rw [h]; simp)]
  refine ⟨h1, ?_, ?_⟩
  · unfold CreateRepositoryIfNotExist
    rw [h1]
  · intro parseRes openRes hres
    cases parseRes with
    | error e => simp [checkRemoteRepoExists] at hres
    | ok u =>
      cases openRes with
      | ok v => simp [checkRemoteRepoExists] at hres
      | error m =>
        refine ⟨m, rfl, ?_⟩
        by_cases hm : goContains m "not found" = true
        · exact hm
        · exfalso
          have h2 : checkRemoteRepoExists (Except.ok u) (Except.error m) =
              Except.error ("error checkRemoteRepoExists call checkRemoteRepoExists NewImageSource: " ++ m) := by
            unfold checkRemoteRepoExists
            dsimp only
            rw [if_neg hm]
          rw [h2] at hres
          exact Except.noConfusion hres

/-- Witness for C6: a "connection refused" open failure is propagated
as a transport error and triggers no bootstrap push. -/
theorem checkRemoteRepoExists_propagates_witness :
    checkRemoteRepoExists (Except.ok ()) (Except.error "connection refused") =
      Except.error ("error checkRemoteRepoExists call checkRemoteRepoExists NewImageSource: " ++ "connection refused") ∧
    CreateRepositoryIfNotExist (Except.ok ()) (Except.error "connection refused") =
      (Except.error ("error checkRemoteRepoExists call checkRemoteRepoExists NewImageSource: " ++ "connection refused"),
       false) := by
  have h := checkRemoteRepoExists_propagates "connection refused" (by decide)
  exact ⟨h.1, h.2.1⟩

/-- The remote registry as the set of repositories it hosts. -/
structure Registry where
  repos : List String

/-- Modelled from the spec: the external registry transport's
NewImageSource (sections 4.2 and 6 of the design, not part of src/) —
opening an image source succeeds exactly when the repository exists,
and otherwise fails with a "not found" transport error. -/
def openImageSource (reg : Registry) (repo : String) : Except String Unit :=
  if reg.repos.contains repo then Except.ok () else Except.error "repository not found"

/-- Modelled from the spec: uploadLocalImageToHarbor pushes the
bootstrap layout through the external transport, after which the
repository exists on the registry. -/
def uploadLocalImageToHarbor (reg : Registry) (repo : String) : Registry :=
  { repos := repo :: reg.repos }

/-- CreateRepositoryIfNotExist run against the abstract registry:
the call result, whether the bootstrap push happened, and the registry
state afterwards. -/
def createRepoOnRegistry (reg : Registry) (repo : String) :
    Except String Unit × Bool × Registry :=
  let res := CreateRepositoryIfNotExist (Except.ok ()) (openImageSource reg repo)
  (res.1, res.2, if res.2 then uploadLocalImageToHarbor reg repo else reg)

/-- C7: two sequential CreateRepositoryIfNotExist calls on the same
address bootstrap at most once: both calls succeed, and the second call
observes the repository as existing, performs no push, and leaves the
registry state unchanged. -/
theorem createRepositoryIfNotExist_idempotent (reg : Registry) (repo : String) :
    ∃ reg1 pushed,
      createRepoOnRegistry reg repo = (Except.ok (), pushed, reg1) ∧
      createRepoOnRegistry reg1 repo = (Except.ok (), false, reg1) := by
  by_cases hc : reg.repos.contains repo = true
  · have h1 : openImageSource reg repo = Except.ok () := by
      unfold openImageSource
      rw [if_pos hc]
    have h2 : createRepoOnRegistry reg repo = (Except.ok (), false, reg) := by
      unfold createRepoOnRegistry
      rw [h1]
      rfl
    exact ⟨reg, false, h2, h2⟩
  · have h1 : openImageSource reg repo = Except.error "repository not found" := by
      unfold openImageSource
      rw [if_neg hc]
    have h2 : createRepoOnRegistry reg repo =
        (Except.ok (), true, uploadLocalImageToHarbor reg repo) := by
      unfold createRepoOnRegistry
      rw [h1]
      rfl
    have hc2 : (uploadLocalImageToHarbor reg repo).repos.contains repo = true := by
      unfold uploadLocalImageToHarbor
      simp
    have h3 : openImageSource (uploadLocalImageToHarbor reg repo) repo = Except.ok () := by
      unfold openImageSource
      rw [if_pos hc2]
    have h4 : createRepoOnRegistry (uploadLocalImageToHarbor reg repo) repo =
        (Except.ok (), false, uploadLocalImageToHarbor reg repo) := by
      unfold createRepoOnRegistry
      rw [h3]
      rfl
    exact ⟨uploadLocalImageToHarbor reg repo, true, h2, h4⟩

/-! ## Process-wide singleton (SimpleNewOnce, NewOnce)

The global fmanager guarded by sync.Once is an Option FmConfig threaded
through the calls; fmOnce.Do runs its body exactly when the state is
still none. -/

structure FmConfig where
  harborUserName : String
  harborUserPassword : String
  rootCacheDir : String
deriving DecidableEq, Repr

/-- SimpleNewOnce (manager): builds the manager from the credentials
and cache directory only when the global is still unset, and returns
the stored manager either way. -/
def SimpleNewOnce (st : Option FmConfig)
    (harborUserName harborUserPassword rootCacheDir : String) :
    Option FmConfig × FmConfig :=
  match st with
  | some cfg => (some cfg, cfg)
  | none =>
    (some ⟨harborUserName, harborUserPassword, rootCacheDir⟩,
     ⟨harborUserName, harborUserPassword, rootCacheDir⟩)

/-- NewOnce (manager): same guard, taking a ready-made config. -/
def NewOnce (st : Option FmConfig) (config : FmConfig) : Option FmConfig × FmConfig :=
  match st with
  | some cfg => (some cfg, cfg)
  | none => (some config, config)

/-- One constructor call of either flavour. -/
inductive FmCall where
  | simple (harborUserName harborUserPassword rootCacheDir : String)
  | fromConfig (config : FmConfig)

/-- Dispatch one call against the global state. -/
def fmStep (st : Option FmConfig) : FmCall → Option FmConfig × FmConfig
  | FmCall.simple u p c => SimpleNewOnce st u p c
  | FmCall.fromConfig cfg => NewOnce st cfg

/-- Run a sequence of calls, collecting each returned manager. -/
def fmRun : Option FmConfig → List FmCall → Option FmConfig × List FmConfig
  | st, [] => (st, [])
  | st, c :: calls =>
    let step := fmStep st c
    let rest := fmRun step.1 calls
    (rest.1, step.2 :: rest.2)

/-- Once the global is set, every call returns the stored manager and
leaves the state alone. -/
theorem fmStep_some (cfg : FmConfig) (c : FmCall) :
    fmStep (some cfg) c = (some cfg, cfg) := by
  cases c <;> rfl

/-- Running any call sequence on a set global changes nothing and
returns the stored manager every time. -/
theorem fmRun_some (cfg : FmConfig) :
    ∀ calls : List FmCall,
      fmRun (some cfg) calls = (some cfg, List.replicate calls.length cfg) := by
  intro calls
  induction calls with
  | nil => rfl
  | cons c rest ih =>
    simp [fmRun, fmStep_some, ih, List.replicate_succ]

/-- C9: the file manager is constructed exactly once: the first
SimpleNewOnce/NewOnce call stores the manager built from its own
arguments, and every later call — whatever credentials it passes —
returns that first manager unchanged and does not touch the stored
state (re-initialization is silently ignored). -/
theorem fileManagerSingleton_once (c0 : FmCall) (calls : List FmCall) :
    (fmStep none c0).1 = some (fmStep none c0).2 ∧
    fmRun (fmStep none c0).1 calls =
      ((fmStep none c0).1, List.replicate calls.length (fmStep none c0).2) := by
  have hfirst : (fmStep none c0).1 = some (fmStep none c0).2 := by
    cases c0 <;> rfl
  refine ⟨hfirst, ?_⟩
  rw [hfirst]
  exact fmRun_some _ calls
